import Mathlib

/-!
Shallow embedding of the text-analyzer repository.

Strings are modelled as `List Char`.  External collaborators (the NLTK
tokenizers, the pyspellchecker dictionary, the `re` regex engine) are
modelled as parameters: the embedded functions receive the token streams
respectively an abstract dictionary / medical-case predicate, exactly at
the call surface the Python code uses them.

Python operations used by the source and their models:
  * `w in s` on strings is a substring test: `List.isInfixOf`.
  * `string.punctuation` is the ASCII characters 33-47, 58-64, 91-96,
    123-126, in increasing code order.
  * integer division by zero raises `ZeroDivisionError`; fallible
    functions therefore return `Option`, `none` marking the raised
    exception.
-/

namespace TextAnalyzer

/-- The vowel string of `count_syllables` in src/1-text_analyzer.py. -/
def vowels : List Char := ['a', 'e', 'i', 'o', 'u', 'y']

def isVowel (c : Char) : Bool := vowels.contains c

/-- The loop `for index in range(1, len(word))` of `count_syllables`:
given the previous character and the remaining characters, count the
positions holding a vowel whose immediately preceding character is not
a vowel. -/
def vowelGroupTail : Char → List Char → Nat
  | _, [] => 0
  | prev, c :: rest => (if isVowel c && !isVowel prev then 1 else 0) + vowelGroupTail c rest

/-- Embeds `count_syllables` (src/1-text_analyzer.py, lines 46-80).  The word is
lower-cased, the first character contributes 1 if it is a vowel, later
vowel-group starts contribute 1 each, a trailing letter e subtracts 1, and the
result is clamped to a minimum of 1.  On the empty string `word[0]`
raises `IndexError`, modelled by `none`. -/
def count_syllables (word : List Char) : Option Int :=
  match word.map Char.toLower with
  | [] => none
  | c :: rest =>
    let base : Int := (if isVowel c then 1 else 0) + vowelGroupTail c rest
    let adjusted : Int := if (c :: rest).getLast? = some 'e' then base - 1 else base
    some (max 1 adjusted)

/-- The suffix test of `count_complex_words`: the word ends in es, ed or ing. -/
def endsWithSuffix (w : List Char) : Bool :=
  "es".toList.isSuffixOf w || "ed".toList.isSuffixOf w || "ing".toList.isSuffixOf w

/-- Embeds `count_complex_words` (src/1-text_analyzer.py, lines 23-44): count the
words with at least three syllables, skipping words that end in
"es", "ed" or "ing".  A `none` from `count_syllables` (empty word)
propagates, as the `IndexError` would. -/
def count_complex_words : List (List Char) → Option Nat
  | [] => some 0
  | w :: ws =>
    match count_syllables w with
    | none => none
    | some s =>
      match count_complex_words ws with
      | none => none
      | some n => some (if 3 ≤ s then (if endsWithSuffix w then n else 1 + n) else n)

/-- The Python constant `string.punctuation`: ASCII 33-47, 58-64, 91-96, 123-126 in
increasing order. -/
def punctuation : List Char :=
  ((List.range 128).map Char.ofNat).filter fun c =>
    (33 ≤ c.toNat && c.toNat ≤ 47) || (58 ≤ c.toNat && c.toNat ≤ 64) ||
    (91 ≤ c.toNat && c.toNat ≤ 96) || (123 ≤ c.toNat && c.toNat ≤ 126)

/-- The Python substring test `w in s` on strings: `w` is a
contiguous substring of `s`.  The empty string is a substring of every
string. -/
def py_in (w : List Char) : List Char → Bool
  | [] => w.isEmpty
  | c :: rest => w.isPrefixOf (c :: rest) || py_in w rest

/-- The word list of `calculate_gunning_fog`:
`[word.lower() for word in word_tokenize(text) if word not in string.punctuation]`,
with the token stream of `word_tokenize` taken as input. -/
def words_of (tokens : List (List Char)) : List (List Char) :=
  (tokens.filter fun w => !(py_in w punctuation)).map (List.map Char.toLower)

/-- The dictionary returned by `calculate_gunning_fog`. -/
structure Report where
  gunning_fog_index : ℚ
  avg_sentence_length : ℚ
  percent_complex_words : ℚ
  complex_word_count : Nat
deriving Repr, DecidableEq

/-- Embeds `calculate_gunning_fog` (src/1-text_analyzer.py, lines 82-114), taking
the streams produced by `sent_tokenize` and `word_tokenize`.  The two
divisions are unguarded in the source; a zero denominator raises
`ZeroDivisionError`, modelled by `none`, in the order the source
evaluates: average sentence length first, then complex-word count, then
the complex-word percentage. -/
def calculate_gunning_fog (sentences tokens : List (List Char)) : Option Report :=
  let words := words_of tokens
  if sentences.length = 0 then none
  else
    let avg : ℚ := (words.length : ℚ) / (sentences.length : ℚ)
    match count_complex_words words with
    | none => none
    | some cc =>
      if words.length = 0 then none
      else
        let pct : ℚ := ((cc : ℚ) / (words.length : ℚ)) * 100
        some ⟨0.4 * (avg + pct), avg, pct, cc⟩

/-! ### Spelling-correction pass (`fix_spelling`, lines 116-176)

The pyspellchecker `SpellChecker` is an external collaborator; it is
modelled by an abstract dictionary with a `known` query (the code calls
it on the lower-cased token) and a `correction` query (called on the raw
token).  A Python return of `None` — and, via truthiness, of the empty
string — counts as "no correction". -/

/-- Abstract spelling dictionary (the external pyspellchecker object,
after the technical terms have been loaded into it). -/
structure Dict where
  known : List Char → Bool
  correction : List Char → Option (List Char)

/-- The `technical_terms` set of `fix_spelling` (the source literal lists
analytics twice; the Python set keeps one copy). -/
def technical_terms : List (List Char) :=
  ["NLP", "AI", "pangram", "chatbots", "analytics", "algorithm", "algorithms"].map
    String.toList

/-- Python `str.isdigit` restricted to ASCII: non-empty and all digits. -/
def isDigitStr (w : List Char) : Bool := !w.isEmpty && w.all Char.isDigit

/-- Python `str.isupper` restricted to ASCII: at least one cased (letter)
character and no lower-case letter. -/
def isUpperStr (w : List Char) : Bool :=
  w.any Char.isAlpha && w.all fun c => !c.isAlpha || c.isUpper

/-- The apostrophe character (ASCII 39), tested by the contraction check
of the token loop. -/
def apostrophe : Char := Char.ofNat 39

/-- The per-token body of the `for word in words` loop of `fix_spelling`:
returns the emitted token and the correction record, if any. -/
def fix_word (d : Dict) (w : List Char) : List Char × Option (List Char × List Char) :=
  if py_in w punctuation || isDigitStr w || technical_terms.contains w || isUpperStr w then
    (w, none)
  else if w.contains apostrophe then
    (w, none)
  else if !(d.known (w.map Char.toLower)) then
    match d.correction w with
    | some c => if c = [] ∨ c = w then (w, none) else (c, some (w, c))
    | none => (w, none)
  else
    (w, none)

/-- The full token loop of `fix_spelling`: the list of emitted tokens
(`fixed_words`) and the accumulated correction records (`corrections`),
in order of occurrence. -/
def fix_tokens (d : Dict) : List (List Char) → List (List Char) × List (List Char × List Char)
  | [] => ([], [])
  | w :: ws =>
    let r := fix_word d w
    let rest := fix_tokens d ws
    (r.1 :: rest.1,
     match r.2 with
     | some p => p :: rest.2
     | none => rest.2)

/-- The reconstruction loop of `fix_spelling`
(`for i, word in enumerate(fixed_words)`): a space is appended before
every token whose index is positive and that is not a substring of
`string.punctuation`. -/
def reconstruct_loop (acc : List Char) (i : Nat) : List (List Char) → List Char
  | [] => acc
  | w :: ws =>
    reconstruct_loop (acc ++ (if 0 < i && !(py_in w punctuation) then [' '] else []) ++ w)
      (i + 1) ws

/-- The `fixed_text` string as built by `fix_spelling`. -/
def reconstruct (ws : List (List Char)) : List Char := reconstruct_loop [] 0 ws

/-- Embeds `fix_spelling` (src/1-text_analyzer.py, lines 116-176) on the token
stream produced by `word_tokenize`. -/
def fix_spelling (d : Dict) (tokens : List (List Char)) :
    List Char × List (List Char × List Char) :=
  (reconstruct (fix_tokens d tokens).1, (fix_tokens d tokens).2)

/-- The exemption conditions of the spelling pass: the first two `if`
branches of the token loop (punctuation / digits / technical term /
upper-case, then contraction). -/
def exempt_cond (w : List Char) : Bool :=
  (py_in w punctuation || isDigitStr w || technical_terms.contains w || isUpperStr w) ||
    w.contains apostrophe

/-- The three fates a token can meet in the spelling pass. -/
inductive TokenFate where
  | exempt
  | corrected
  | unchanged
deriving Repr, DecidableEq

/-- Which fate the spelling pass assigns a token: exempt when one of the
skip conditions fires, corrected when a correction record is emitted,
unchanged otherwise. -/
def classify_word (d : Dict) (w : List Char) : TokenFate :=
  if exempt_cond w then TokenFate.exempt
  else
    match (fix_word d w).2 with
    | some _ => TokenFate.corrected
    | none => TokenFate.unchanged

/-! ### Specification-side definitions, stated from the wording of the spec,
to be compared with the embedded source functions. -/

/-- Modelled from the spec (claim side): the vowel-group-start count of
a word — 1 if the first character is a vowel, plus 1 for each later
vowel whose immediately preceding character is not a vowel. -/
def vowel_group_starts (w : List Char) : Nat :=
  (match w with
   | [] => 0
   | c :: _ => if isVowel c then 1 else 0) +
    (w.zip w.tail).countP fun p => isVowel p.2 && !isVowel p.1

/-- Modelled from the spec (claim side): the vowel-group heuristic on
the case-folded word — vowel-group starts, minus 1 if the word ends in
the letter e, clamped to a minimum of 1. -/
def syllables_spec (w : List Char) : Int :=
  let lw := w.map Char.toLower
  max 1 ((vowel_group_starts lw : Int) - if lw.getLast? = some 'e' then 1 else 0)

/-- Modelled from the spec (claim side): a complex word has at least
three heuristic syllables and does not end in "es", "ed" or "ing". -/
def is_complex_spec (w : List Char) : Bool :=
  decide (3 ≤ syllables_spec w) && !endsWithSuffix w

/-- Modelled from the spec (claim side): the per-token spelling policy,
first match wins, in the order the spec lists it — (1) punctuation /
entirely numeric / entirely upper-case / allowlist, (2) apostrophe,
(3) dictionary-known case-folded, else a best correction that exists
(is a non-empty string) and differs from the original is substituted
with a record. -/
def policy_spec (d : Dict) (w : List Char) : List Char × Option (List Char × List Char) :=
  if py_in w punctuation || isDigitStr w || isUpperStr w || technical_terms.contains w then
    (w, none)
  else if w.contains apostrophe then
    (w, none)
  else if d.known (w.map Char.toLower) then
    (w, none)
  else
    match d.correction w with
    | some c => if c = [] ∨ c = w then (w, none) else (c, some (w, c))
    | none => (w, none)

/-- Modelled from the spec (claim side): join the tokens with a single
space before every token except the first and except tokens that are
(substrings of) punctuation. -/
def join_spec : List (List Char) → List Char
  | [] => []
  | w :: ws =>
    w ++ (ws.map fun v => (if py_in v punctuation then [] else [' ']) ++ v).flatten

/-! ### Document orchestration (`process_text_file`, lines 262-319)

The `try` block of `process_text_file` wraps the whole paragraph loop;
the per-paragraph body (spell-fix then analyze) is modelled by a
function into `Option`, `none` standing for a raised exception.  The
returned flag records whether the top-level `except` handler fired. -/

/-- The paragraph loop of `process_text_file`: results of the paragraphs
processed before the first failure, and whether an exception reached the
top-level handler (aborting the remaining paragraphs). -/
def process_text_file (analyze : List Char → Option (List Char)) :
    List (List Char) → List (List Char) × Bool
  | [] => ([], false)
  | p :: ps =>
    match analyze p with
    | none => ([], true)
    | some r =>
      match process_text_file analyze ps with
      | (rs, aborted) => (r :: rs, aborted)

end TextAnalyzer

namespace ManualClassifier

/-! ### Embedding of src/2-manual_classifier.py

`is_medical_case` applies `re.search` over ten regex patterns; the `re`
engine is external, so the whole predicate is abstracted as a parameter
`medCase`, applied — as at both call sites in the source — to the
lower-cased paragraph.  Keyword membership (`keyword in paragraph_lower`)
is the Python substring test. -/

/-- The `tech_keywords` set of `is_technology_related`. -/
def tech_keywords : List (List Char) :=
  ["technology", "computer", "artificial intelligence", "ai", "machine learning",
   "nlp", "algorithm", "digital", "chatbot", "analytics", "data",
   "recommendation", "facial recognition", "autonomous", "smart"].map String.toList

/-- The `medical_keywords` set of `is_medical_related`. -/
def medical_keywords : List (List Char) :=
  ["patient", "diagnosis", "symptoms", "pain", "medical", "clinical",
   "treatment", "disease", "hospital", "doctor", "fever", "bleeding",
   "presents with", "complains of", "injury", "swelling", "fatigue",
   "nausea", "vomiting", "headache", "chest", "heart", "breathing",
   "blood", "medication", "surgery", "examination", "condition",
   "chronic", "acute", "prescription", "therapy", "healthcare"].map String.toList

/-- Embeds `is_technology_related` (src/2-manual_classifier.py, lines 31-52):
lower-case the paragraph, return `false` if it is a medical case,
otherwise whether any tech keyword occurs as a substring. -/
def is_technology_related (medCase : List Char → Bool) (paragraph : List Char) : Bool :=
  let pl := paragraph.map Char.toLower
  if medCase pl then false
  else 0 < tech_keywords.countP fun k => TextAnalyzer.py_in k pl

/-- Embeds `is_medical_related` (src/2-manual_classifier.py, lines 79-103):
lower-case the paragraph, return `true` if it is a medical case,
otherwise whether any medical keyword occurs as a substring. -/
def is_medical_related (medCase : List Char → Bool) (paragraph : List Char) : Bool :=
  let pl := paragraph.map Char.toLower
  if medCase pl then true
  else 0 < medical_keywords.countP fun k => TextAnalyzer.py_in k pl

/-- The classification loop of `classify_text` (src/2-manual_classifier.py,
lines 105-135): medical is checked first, technology only in the `elif`;
returns (tech paragraphs, medical paragraphs) in input order. -/
def classify_text (medCase : List Char → Bool) :
    List (List Char) → List (List Char) × List (List Char)
  | [] => ([], [])
  | p :: ps =>
    let rest := classify_text medCase ps
    if is_medical_related medCase p then (rest.1, p :: rest.2)
    else if is_technology_related medCase p then (p :: rest.1, rest.2)
    else (rest.1, rest.2)

end ManualClassifier

namespace TextAnalyzer

/-- A deterministic stub dictionary, used to instantiate the
dictionary-parametric theorems at a concrete input: it knows the words
"the" and "cat" and corrects "teh" to "the". -/
def stub_dict : Dict :=
  ⟨fun w => w == "the".toList || w == "cat".toList,
   fun w => if w = "teh".toList then some "the".toList else none⟩

/-- The token stream of the end-to-end scenario
"The cat sat on the mat." -/
def example_tokens : List (List Char) :=
  ["The", "cat", "sat", "on", "the", "mat", "."].map String.toList

/-- A paragraph-analysis stub that fails exactly on the paragraph "bad"
and succeeds, returning the paragraph itself, on every other one. -/
def brittle_analyze (p : List Char) : Option (List Char) :=
  if p = "bad".toList then none else some p

end TextAnalyzer

namespace ManualClassifier

/-- A deterministic stub for the regex-engine predicate `is_medical_case`:
a text is a medical case when it contains "patient". -/
def stub_med_case (s : List Char) : Bool := TextAnalyzer.py_in "patient".toList s

end ManualClassifier

namespace TextAnalyzer

/-! ### Theorems -/

theorem vowelGroupTail_eq (rest : List Char) : ∀ c : Char,
    vowelGroupTail c rest =
      ((c :: rest).zip rest).countP fun p => isVowel p.2 && !isVowel p.1 := by
  induction rest with
  | nil => intro c; rfl
  | cons d rs ih =>
    intro c
    simp only [vowelGroupTail, List.zip_cons_cons, List.countP_cons, ih d]
    by_cases h : (isVowel d && !isVowel c) = true <;> simp [h] <;> omega

theorem count_syllables_eq (w : List Char) (h : w ≠ []) :
    count_syllables w = some (syllables_spec w) := by
  cases hlw : w.map Char.toLower with
  | nil => exact absurd (List.map_eq_nil_iff.mp hlw) h
  | cons c rest =>
    simp only [count_syllables, syllables_spec, vowel_group_starts, hlw, List.tail_cons,
      vowelGroupTail_eq]
    congr 1
    have hcast : (((if isVowel c then 1 else 0 : Nat) +
        ((c :: rest).zip rest).countP (fun p => isVowel p.2 && !isVowel p.1) : Nat) : Int) =
        (if isVowel c then (1 : Int) else 0) +
          (((c :: rest).zip rest).countP (fun p => isVowel p.2 && !isVowel p.1) : Int) := by
      push_cast
      by_cases hv : isVowel c = true <;> simp [hv]
    rw [hcast]
    split <;> ring_nf

theorem syllables_spec_pos (w : List Char) : 1 ≤ syllables_spec w :=
  le_max_left 1 _

theorem count_syllables_none_iff (w : List Char) :
    count_syllables w = none ↔ w = [] := by
  constructor
  · intro h
    by_contra hw
    rw [count_syllables_eq w hw] at h
    exact Option.noConfusion h
  · intro h
    subst h
    rfl

theorem count_complex_words_eq (ws : List (List Char)) (h : ∀ w ∈ ws, w ≠ []) :
    count_complex_words ws = some (ws.countP fun w => is_complex_spec w) := by
  induction ws with
  | nil => rfl
  | cons w rest ih =>
    have hw : w ≠ [] := h w (List.mem_cons_self w rest)
    have hrest : ∀ v ∈ rest, v ≠ [] := fun v hv => h v (List.mem_cons_of_mem w hv)
    simp only [count_complex_words, count_syllables_eq w hw, ih hrest,
      List.countP_cons, is_complex_spec]
    by_cases h3 : 3 ≤ syllables_spec w
    · by_cases hsuf : endsWithSuffix w = true <;> simp [h3, hsuf] <;> omega
    · simp [h3]

/-- C1: for every non-empty word, `count_syllables` computes the
vowel-group heuristic — vowel-group starts on the case-folded word,
minus one for a trailing letter e, clamped to a minimum of 1 — hence is
at least 1, and gives 1 on "cake". -/
theorem claim_C1_count_syllables (w : List Char) (h : w ≠ []) :
    count_syllables w = some (syllables_spec w) ∧
      1 ≤ syllables_spec w ∧
      count_syllables "cake".toList = some 1 :=
  ⟨count_syllables_eq w h, syllables_spec_pos w, by decide⟩

theorem claim_C1_count_syllables_witness :
    count_syllables "cake".toList = some (syllables_spec "cake".toList) ∧
      1 ≤ syllables_spec "cake".toList ∧
      count_syllables "cake".toList = some 1 :=
  claim_C1_count_syllables "cake".toList (by decide)

/-- C2: `count_complex_words` counts exactly the words whose heuristic
syllable count is at least 3 and that do not end in "es", "ed" or "ing";
on the single word "running" it returns 0. -/
theorem claim_C2_count_complex_words (ws : List (List Char)) (h : ∀ w ∈ ws, w ≠ []) :
    count_complex_words ws = some (ws.countP fun w => is_complex_spec w) ∧
      count_complex_words ["running".toList] = some 0 :=
  ⟨count_complex_words_eq ws h, by decide⟩

theorem claim_C2_count_complex_words_witness :
    count_complex_words ["generous".toList, "running".toList] =
        some (["generous".toList, "running".toList].countP fun w => is_complex_spec w) ∧
      count_complex_words ["running".toList] = some 0 :=
  claim_C2_count_complex_words ["generous".toList, "running".toList] (by decide)

/-- C9: `count_syllables` is total exactly on non-empty inputs: a
non-empty word yields an integer, and the out-of-bounds access (the
`none` branch) is reached exactly on the empty string. -/
theorem claim_C9_totality (w : List Char) :
    (w ≠ [] → ∃ n : Int, count_syllables w = some n) ∧
      (count_syllables w = none ↔ w = []) :=
  ⟨fun h => ⟨syllables_spec w, count_syllables_eq w h⟩, count_syllables_none_iff w⟩

theorem claim_C9_totality_witness :
    (∃ n : Int, count_syllables "cake".toList = some n) ∧
      (count_syllables "".toList = none ↔ "".toList = []) :=
  ⟨(claim_C9_totality "cake".toList).1 (by decide), (claim_C9_totality "".toList).2⟩

theorem py_in_nil (s : List Char) : py_in [] s = true := by
  cases s <;> rfl

theorem words_of_forall_ne_nil (tokens : List (List Char)) :
    ∀ w ∈ words_of tokens, w ≠ [] := by
  intro w hw
  simp only [words_of, List.mem_map, List.mem_filter] at hw
  obtain ⟨v, ⟨_, hfilt⟩, rfl⟩ := hw
  intro hmap
  rw [List.map_eq_nil_iff.mp hmap, py_in_nil] at hfilt
  exact Bool.noConfusion hfilt

theorem words_of_example : (words_of example_tokens).length = 6 := by decide

/-- C3: with at least one sentence and at least one non-punctuation
word, `calculate_gunning_fog` returns the average sentence length
(words over sentences), the complex-word percentage
(100 times complex words over words) and 0.4 times their sum, and on
"The cat sat on the mat." yields 1 sentence, 6 words, average sentence
length 6, 0 complex words and index 2.4. -/
theorem claim_C3_gunning_fog (sentences tokens : List (List Char))
    (hs : sentences ≠ []) (hw : words_of tokens ≠ []) :
    calculate_gunning_fog sentences tokens =
        some ⟨0.4 * (((words_of tokens).length : ℚ) / (sentences.length : ℚ) +
                100 * (((words_of tokens).countP fun w => is_complex_spec w : Nat) : ℚ) /
                  ((words_of tokens).length : ℚ)),
              ((words_of tokens).length : ℚ) / (sentences.length : ℚ),
              100 * (((words_of tokens).countP fun w => is_complex_spec w : Nat) : ℚ) /
                ((words_of tokens).length : ℚ),
              (words_of tokens).countP fun w => is_complex_spec w⟩ ∧
      calculate_gunning_fog ["The cat sat on the mat.".toList] example_tokens =
        some ⟨2.4, 6, 0, 0⟩ ∧
      (words_of example_tokens).length = 6 ∧
      (["The cat sat on the mat.".toList] : List (List Char)).length = 1 := by
  have hscc := count_complex_words_eq (words_of tokens) (words_of_forall_ne_nil tokens)
  have hsl : sentences.length ≠ 0 := fun h0 => hs (List.length_eq_zero.mp h0)
  have hwl : (words_of tokens).length ≠ 0 := fun h0 => hw (List.length_eq_zero.mp h0)
  refine ⟨?_, ?_, words_of_example, rfl⟩
  · simp only [calculate_gunning_fog, hscc, if_neg hsl, if_neg hwl]
    simp only [Option.some.injEq, Report.mk.injEq]
    refine ⟨by ring, trivial, by ring, trivial⟩
  · have h2 : count_complex_words (words_of example_tokens) = some 0 := by decide
    simp only [calculate_gunning_fog, h2, words_of_example, List.length_cons,
      List.length_nil]
    norm_num [Report.mk.injEq]

theorem claim_C3_gunning_fog_witness :
    calculate_gunning_fog ["The cat sat on the mat.".toList] example_tokens =
      some ⟨2.4, 6, 0, 0⟩ :=
  (claim_C3_gunning_fog ["The cat sat on the mat.".toList] example_tokens
    (by decide) (by decide)).2.1

/-- C4 (refuting the claim): on empty text — zero sentences and zero
words — the readability calculator neither raises a defined empty-input
error nor returns an all-zero report: the unguarded division raises
`ZeroDivisionError` (the `none` of the model); the same happens when the
text consists of a single punctuation token, which leaves zero
non-punctuation words. -/
theorem claim_C4_empty_division :
    calculate_gunning_fog [] [] = none ∧
      calculate_gunning_fog [".".toList] [".".toList] = none ∧
      ∀ r : Report, calculate_gunning_fog [] [] ≠ some r := by
  refine ⟨rfl, by decide, ?_⟩
  intro r
  exact fun h => Option.noConfusion h

theorem fix_word_exempt (d : Dict) (w : List Char) (h : exempt_cond w = true) :
    fix_word d w = (w, none) := by
  unfold fix_word
  unfold exempt_cond at h
  by_cases h1 : (py_in w punctuation || isDigitStr w || technical_terms.contains w ||
      isUpperStr w) = true
  · rw [if_pos h1]
  · rw [if_neg h1]
    rw [Bool.not_eq_true] at h1
    rw [h1, Bool.false_or] at h
    rw [if_pos h]

theorem fix_word_known (d : Dict) (w : List Char)
    (hk : d.known (w.map Char.toLower) = true) :
    fix_word d w = (w, none) := by
  unfold fix_word
  split
  · rfl
  · split
    · rfl
    · rw [hk]
      rfl

theorem fix_word_cases (d : Dict) (w : List Char) :
    fix_word d w = (w, none) ∨
      ∃ c, fix_word d w = (c, some (w, c)) ∧ c ≠ w ∧ c ≠ [] := by
  unfold fix_word
  split
  · exact Or.inl rfl
  · split
    · exact Or.inl rfl
    · split
      · cases hc : d.correction w with
        | none => exact Or.inl rfl
        | some c =>
          dsimp only
          by_cases h0 : c = [] ∨ c = w
          · rw [if_pos h0]
            exact Or.inl rfl
          · rw [if_neg h0]
            exact Or.inr ⟨c, rfl, fun he => h0 (Or.inr he), fun he => h0 (Or.inl he)⟩
      · exact Or.inl rfl

theorem fix_word_eq_policy (d : Dict) (w : List Char) :
    fix_word d w = policy_spec d w := by
  unfold fix_word policy_spec
  have hcond : (py_in w punctuation || isDigitStr w || technical_terms.contains w ||
      isUpperStr w)
      = (py_in w punctuation || isDigitStr w || isUpperStr w ||
      technical_terms.contains w) := by
    cases py_in w punctuation <;> cases isDigitStr w <;>
      cases technical_terms.contains w <;> cases isUpperStr w <;> rfl
  rw [hcond]
  by_cases h1 : (py_in w punctuation || isDigitStr w || isUpperStr w ||
      technical_terms.contains w) = true
  · rw [if_pos h1, if_pos h1]
  · rw [if_neg h1, if_neg h1]
    by_cases h2 : w.contains apostrophe = true
    · rw [if_pos h2, if_pos h2]
    · rw [if_neg h2, if_neg h2]
      by_cases hk : d.known (w.map Char.toLower) = true
      · rw [if_neg (by simp [hk]), if_pos hk]
      · have hk0 : d.known (w.map Char.toLower) = false := by
          rwa [Bool.not_eq_true] at hk
        rw [if_pos (by simp [hk0]), if_neg hk]

/-- C5: the per-token spelling policy is, with first match winning:
exempt tokens (punctuation, numeric, upper-case, allowlist) pass
unchanged, apostrophe tokens pass unchanged, dictionary-known tokens
pass unchanged, and an unknown token is replaced by its best correction
with a record exactly when one exists and differs; allowlisted technical
terms are never altered under any dictionary. -/
theorem claim_C5_token_policy (d : Dict) (w : List Char) :
    fix_word d w = policy_spec d w ∧
      (w ∈ technical_terms → fix_word d w = (w, none)) :=
  ⟨fix_word_eq_policy d w,
   fun hm =>
     fix_word_exempt d w
       (by
         unfold exempt_cond
         have hc : technical_terms.contains w = true := List.elem_eq_true_of_mem hm
         rw [hc]
         simp)⟩

theorem claim_C5_token_policy_witness :
    (fix_word stub_dict "algorithm".toList = policy_spec stub_dict "algorithm".toList ∧
        fix_word stub_dict "algorithm".toList = ("algorithm".toList, none)) ∧
      fix_word stub_dict "NLP".toList = ("NLP".toList, none) ∧
      fix_word stub_dict "AI".toList = ("AI".toList, none) :=
  ⟨⟨(claim_C5_token_policy stub_dict "algorithm".toList).1,
    (claim_C5_token_policy stub_dict "algorithm".toList).2 (by decide)⟩,
   (claim_C5_token_policy stub_dict "NLP".toList).2 (by decide),
   (claim_C5_token_policy stub_dict "AI".toList).2 (by decide)⟩

theorem fix_tokens_length (d : Dict) (ts : List (List Char)) :
    (fix_tokens d ts).1.length = ts.length := by
  induction ts with
  | nil => rfl
  | cons w ws ih => simp [fix_tokens, ih]

theorem reconstruct_loop_eq (ws : List (List Char)) :
    ∀ (acc : List Char) (i : Nat), 0 < i →
      reconstruct_loop acc i ws =
        acc ++ (ws.map fun v => (if py_in v punctuation then [] else [' ']) ++ v).flatten := by
  induction ws with
  | nil =>
    intro acc i _
    simp [reconstruct_loop]
  | cons w ws ih =>
    intro acc i hi
    simp only [reconstruct_loop, List.map_cons, List.flatten_cons]
    rw [ih _ (i + 1) (Nat.succ_pos i), decide_eq_true hi]
    by_cases hp : py_in w punctuation = true
    · simp [hp, List.append_assoc]
    · rw [Bool.not_eq_true] at hp
      simp [hp, List.append_assoc]

theorem reconstruct_eq_join_spec (ws : List (List Char)) :
    reconstruct ws = join_spec ws := by
  cases ws with
  | nil => rfl
  | cons w ws =>
    simp only [reconstruct, reconstruct_loop, join_spec]
    rw [reconstruct_loop_eq ws _ 1 Nat.one_pos]
    simp

theorem classify_word_complete (d : Dict) (w : List Char) :
    (classify_word d w = TokenFate.exempt ∧ fix_word d w = (w, none)) ∨
      (∃ c, classify_word d w = TokenFate.corrected ∧
        fix_word d w = (c, some (w, c)) ∧ c ≠ w) ∨
      (classify_word d w = TokenFate.unchanged ∧ fix_word d w = (w, none)) := by
  by_cases he : exempt_cond w = true
  · exact Or.inl ⟨by simp [classify_word, he], fix_word_exempt d w he⟩
  · rcases fix_word_cases d w with h | ⟨c, hc, hcw, _⟩
    · exact Or.inr (Or.inr ⟨by simp [classify_word, he, h], h⟩)
    · exact Or.inr (Or.inl ⟨c, by simp [classify_word, he, hc], hc, hcw⟩)

/-- C6: the spelling pass maps each token of the paragraph to exactly
one of exempt, corrected or unchanged (with the corresponding emitted
token), keeps the token count of the tokenization, and reconstructs the
output by joining the per-token results with a single space before every
token except the first and except punctuation tokens. -/
theorem claim_C6_reconstruction (d : Dict) (ts : List (List Char)) :
    (fix_tokens d ts).1.length = ts.length ∧
      (fix_spelling d ts).1 = join_spec (fix_tokens d ts).1 ∧
      ∀ w ∈ ts,
        (classify_word d w = TokenFate.exempt ∧ fix_word d w = (w, none)) ∨
          (∃ c, classify_word d w = TokenFate.corrected ∧
            fix_word d w = (c, some (w, c)) ∧ c ≠ w) ∨
          (classify_word d w = TokenFate.unchanged ∧ fix_word d w = (w, none)) :=
  ⟨fix_tokens_length d ts,
   reconstruct_eq_join_spec (fix_tokens d ts).1,
   fun w _ => classify_word_complete d w⟩

theorem claim_C6_reconstruction_witness :
    (fix_tokens stub_dict ["teh".toList, ".".toList]).1.length =
        (["teh".toList, ".".toList] : List (List Char)).length ∧
      ((classify_word stub_dict "teh".toList = TokenFate.exempt ∧
          fix_word stub_dict "teh".toList = ("teh".toList, none)) ∨
        (∃ c, classify_word stub_dict "teh".toList = TokenFate.corrected ∧
          fix_word stub_dict "teh".toList = (c, some ("teh".toList, c)) ∧ c ≠ "teh".toList) ∨
        (classify_word stub_dict "teh".toList = TokenFate.unchanged ∧
          fix_word stub_dict "teh".toList = ("teh".toList, none))) :=
  ⟨(claim_C6_reconstruction stub_dict ["teh".toList, ".".toList]).1,
   (claim_C6_reconstruction stub_dict ["teh".toList, ".".toList]).2.2 "teh".toList
     (by decide)⟩

theorem fix_tokens_clean (d : Dict) (ts : List (List Char))
    (h : ∀ w ∈ ts, exempt_cond w = true ∨ d.known (w.map Char.toLower) = true) :
    fix_tokens d ts = (ts, []) := by
  induction ts with
  | nil => rfl
  | cons w ws ih =>
    have hw : fix_word d w = (w, none) := by
      rcases h w (List.mem_cons_self w ws) with he | hk
      · exact fix_word_exempt d w he
      · exact fix_word_known d w hk
    have hws := ih fun v hv => h v (List.mem_cons_of_mem w hv)
    simp [fix_tokens, hw, hws]

/-- C7: on clean text — every token exempt or known to the dictionary —
the spelling pass is the identity with no corrections, so applying the
pass to its own token output returns the identical text together with an
empty correction list. -/
theorem claim_C7_idempotence (d : Dict) (ts : List (List Char))
    (h : ∀ w ∈ ts, exempt_cond w = true ∨ d.known (w.map Char.toLower) = true) :
    fix_tokens d ts = (ts, []) ∧
      fix_spelling d (fix_tokens d ts).1 = ((fix_spelling d ts).1, []) := by
  have h1 := fix_tokens_clean d ts h
  exact ⟨h1, by simp [fix_spelling, h1]⟩

theorem claim_C7_idempotence_witness :
    fix_tokens stub_dict ["NLP".toList, "the".toList] =
        (["NLP".toList, "the".toList], []) ∧
      fix_spelling stub_dict (fix_tokens stub_dict ["NLP".toList, "the".toList]).1 =
        ((fix_spelling stub_dict ["NLP".toList, "the".toList]).1, []) :=
  claim_C7_idempotence stub_dict ["NLP".toList, "the".toList] (by decide)

/-- C8 (refuting the claim): an analysis error on one paragraph does
abort the rest of the run.  With a step that fails on the first of two
paragraphs, the second — although analyzable — is never processed and
the top-level handler fires, so the failing paragraph is not "skipped
with processing continuing". -/
theorem claim_C8_counterexample :
    process_text_file brittle_analyze ["bad".toList, "good".toList] = ([], true) ∧
      brittle_analyze "good".toList = some "good".toList ∧
      (process_text_file brittle_analyze ["bad".toList, "good".toList]).1 ≠
        ["bad".toList, "good".toList].filterMap brittle_analyze := by
  refine ⟨rfl, rfl, ?_⟩
  decide

/-- C8 (amended): the paragraph loop sits inside a single `try` block,
so the run processes exactly the paragraphs before the first failing
one, and the top-level handler fires — skipping all remaining
paragraphs — exactly when some paragraph fails. -/
theorem claim_C8_abort_semantics (f : List Char → Option (List Char))
    (ps : List (List Char)) :
    process_text_file f ps =
      ((ps.takeWhile fun p => (f p).isSome).filterMap f,
       ps.any fun p => (f p).isNone) := by
  induction ps with
  | nil => rfl
  | cons p ps ih =>
    cases hf : f p with
    | none =>
      simp [process_text_file, hf, List.takeWhile_cons, List.any_cons]
    | some r =>
      simp [process_text_file, hf, List.takeWhile_cons, List.any_cons, ih,
        List.filterMap_cons]

end TextAnalyzer

namespace ManualClassifier

theorem tech_false_of_med_case (m : List Char → Bool) (p : List Char)
    (h : m (p.map Char.toLower) = true) :
    is_technology_related m p = false := by
  simp [is_technology_related, h]

theorem classify_mem_tech (m : List Char → Bool) (ps : List (List Char)) (p : List Char)
    (hp : p ∈ (classify_text m ps).1) :
    is_medical_related m p = false ∧ is_technology_related m p = true := by
  induction ps with
  | nil => cases hp
  | cons q qs ih =>
    simp only [classify_text] at hp
    by_cases hm : is_medical_related m q = true
    · rw [if_pos hm] at hp
      exact ih hp
    · rw [if_neg hm] at hp
      by_cases ht : is_technology_related m q = true
      · rw [if_pos ht] at hp
        rcases List.mem_cons.mp hp with rfl | hp2
        · exact ⟨by rwa [Bool.not_eq_true] at hm, ht⟩
        · exact ih hp2
      · rw [if_neg ht] at hp
        exact ih hp

theorem classify_mem_med (m : List Char → Bool) (ps : List (List Char)) (p : List Char)
    (hp : p ∈ (classify_text m ps).2) :
    is_medical_related m p = true := by
  induction ps with
  | nil => cases hp
  | cons q qs ih =>
    simp only [classify_text] at hp
    by_cases hm : is_medical_related m q = true
    · rw [if_pos hm] at hp
      rcases List.mem_cons.mp hp with rfl | hp2
      · exact hm
      · exact ih hp2
    · rw [if_neg hm] at hp
      by_cases ht : is_technology_related m q = true
      · rw [if_pos ht] at hp
        exact ih hp
      · rw [if_neg ht] at hp
        exact ih hp

/-- C10: in the keyword classifier each paragraph lands in at most one
bucket: `is_technology_related` returns false whenever the medical-case
predicate holds on the lower-cased paragraph, a paragraph in the
technology bucket is not medical-related (medical is checked first), and
no paragraph is in both buckets. -/
theorem claim_C10_disjoint_buckets (m : List Char → Bool) (ps : List (List Char))
    (p : List Char) :
    (m (p.map Char.toLower) = true → is_technology_related m p = false) ∧
      (p ∈ (classify_text m ps).1 →
        is_medical_related m p = false ∧ is_technology_related m p = true) ∧
      ¬(p ∈ (classify_text m ps).1 ∧ p ∈ (classify_text m ps).2) :=
  ⟨tech_false_of_med_case m p,
   classify_mem_tech m ps p,
   fun ⟨h1, h2⟩ =>
     Bool.false_ne_true ((classify_mem_tech m ps p h1).1 ▸ classify_mem_med m ps p h2)⟩

theorem claim_C10_disjoint_buckets_witness :
    is_technology_related stub_med_case "The patient reports pain".toList = false :=
  (claim_C10_disjoint_buckets stub_med_case [] "The patient reports pain".toList).1
    (by decide)

end ManualClassifier
